import Mathlib

/-!
Shallow embedding of the `context-free-expressions` validation engine
(`src/packages/cfexp/src/index.ts`) and proofs about its specification.

Modelling conventions:
* Capture keys and capture records are compared by reference identity in the
  source (JS `Set`/`Map` membership); both are modelled as `Nat` identity
  tokens (`CKey`, `Capture`).
* JS `Set` is an insertion-ordered duplicate-free list (`jsSetAdd`, `jsSetOf`);
  JS `Map` is an insertion-ordered association list (`lookupA`, `mapSet`).
* JS exceptions are modelled with `Except String`.
* `string | string[]` arguments of the exported result constructors are
  modelled by `StrOrList`.
-/

abbrev CKey := Nat

abbrev Capture := Nat

/-- JS `Set.prototype.add`: insertion ordered, ignores duplicates. -/
def jsSetAdd {α : Type} [DecidableEq α] (l : List α) (a : α) : List α :=
  if a ∈ l then l else l ++ [a]

/-- JS `new Set(list)`: deduplicate keeping first occurrences in order. -/
def jsSetOf {α : Type} [DecidableEq α] (l : List α) : List α :=
  l.foldl jsSetAdd []

/-- JS `Map.prototype.get` over an insertion-ordered association list. -/
def lookupA {α β : Type} [DecidableEq α] : List (α × β) → α → Option β
  | [], _ => none
  | p :: ps, k => if p.1 = k then some p.2 else lookupA ps k

/-- JS `Map.prototype.set`: update in place when the key exists, else append. -/
def mapSet {α β : Type} [DecidableEq α] (m : List (α × β)) (k : α) (v : β) :
    List (α × β) :=
  if m.any (fun p => decide (p.1 = k)) then
    m.map (fun p => if p.1 = k then (k, v) else p)
  else m ++ [(k, v)]

/-- JS `Map.prototype.has`. -/
def mapHas {α β : Type} [DecidableEq α] (m : List (α × β)) (k : α) : Bool :=
  m.any (fun p => decide (p.1 = k))

/-- JS `Map.prototype.delete`. -/
def mapDelete {α β : Type} [DecidableEq α] (m : List (α × β)) (k : α) :
    List (α × β) :=
  m.filter (fun p => decide (p.1 ≠ k))

/-- Source `class CaptureSet` (index.ts lines 17-46): a map from capture keys to
capture records plus the set of keys that have been claimed more than once. -/
structure CaptureSet where
  overloadedKeys : List CKey
  definedKeys : List (CKey × Capture)
deriving DecidableEq, Repr

namespace CaptureSet

/-- Source `new CaptureSet([])`. -/
def empty : CaptureSet := ⟨[], []⟩

/-- Source `CaptureSet.add` (index.ts lines 21-30): an overloaded key is left alone;
a second claim for a defined key deletes the mapping and marks the key
overloaded; otherwise the pair is recorded. -/
def add (s : CaptureSet) (key : CKey) (io : Capture) : CaptureSet :=
  if key ∈ s.overloadedKeys then s
  else if mapHas s.definedKeys key then
    ⟨jsSetAdd s.overloadedKeys key, mapDelete s.definedKeys key⟩
  else ⟨s.overloadedKeys, s.definedKeys ++ [(key, io)]⟩

/-- Source `CaptureSet.get` (index.ts lines 32-34): looks only at `definedKeys`. -/
def get (s : CaptureSet) (key : CKey) : Option Capture :=
  lookupA s.definedKeys key

/-- One iteration of the `CaptureSet` constructor loop (index.ts lines 37-44):
copy the child's overloaded keys, then `add` each of its defined pairs. -/
def mergeChild (acc child : CaptureSet) : CaptureSet :=
  let acc1 : CaptureSet :=
    ⟨child.overloadedKeys.foldl jsSetAdd acc.overloadedKeys, acc.definedKeys⟩
  child.definedKeys.foldl (fun a p => a.add p.1 p.2) acc1

/-- Source `new CaptureSet(captureSets)` (index.ts lines 36-45). -/
def ofSets (children : List CaptureSet) : CaptureSet :=
  children.foldl mergeChild empty

end CaptureSet

/-- Source `crossProductCaptures` restricted to a non-empty argument
(`captures = foos :: rest`), which never throws: the recursive structure of
index.ts lines 83-91. -/
def crossNE : List CaptureSet → List (List CaptureSet) → List CaptureSet
  | foos, [] => foos
  | foos, r :: rs =>
    let bars := crossNE r rs
    if foos = [] then bars
    else foos.flatMap (fun foo => bars.map (fun bar => CaptureSet.ofSets [foo, bar]))

/-- Source `crossProductCaptures` (index.ts lines 77-92); the zero-list case throws. -/
def crossProductCaptures : List (List CaptureSet) → Except String (List CaptureSet)
  | [] => .error "cross product is undefined when no CaptureSet arrays are provided"
  | foos :: rest => .ok (crossNE foos rest)

/-- Source `ValidationResult<T> = Valid<T> | Invalid<T> | Failure<T>`
(index.ts lines 73, 133-218). `Failure` carries no value and no captures. -/
inductive VResult (T : Type) where
  | valid (value : T) (warnings : List String) (captures : List CaptureSet)
  | invalid (value : T) (errors : List String) (warnings : List String)
      (captures : List CaptureSet)
  | failure (errors : List String) (warnings : List String)
deriving DecidableEq, Repr

namespace VResult

variable {T U : Type}

/-- Source `isValid` (index.ts lines 330-333). -/
def isValid : VResult T → Bool
  | .valid _ _ _ => true
  | _ => false

/-- Source `isInvalid` (index.ts lines 335-338). -/
def isInvalid : VResult T → Bool
  | .invalid _ _ _ _ => true
  | _ => false

/-- Source `isFailure` (index.ts lines 340-343). -/
def isFailure : VResult T → Bool
  | .failure _ _ => true
  | _ => false

/-- The `value` field; `Failure.value` is `undefined`, modelled as `none`. -/
def valueOf : VResult T → Option T
  | .valid v _ _ => some v
  | .invalid v _ _ _ => some v
  | .failure _ _ => none

/-- The `warnings` field, present on every result kind. -/
def warningsOf : VResult T → List String
  | .valid _ w _ => w
  | .invalid _ _ w _ => w
  | .failure _ w => w

/-- The `errors` field; `Valid.errors` is `undefined`, modelled as `none`. -/
def errorsOf : VResult T → Option (List String)
  | .valid _ _ _ => none
  | .invalid _ e _ _ => some e
  | .failure e _ => some e

/-- Source `result.errors || []`, the form used by `bind` and `mergeResults`. -/
def errorsOrEmpty : VResult T → List String
  | .valid _ _ _ => []
  | .invalid _ e _ _ => e
  | .failure e _ => e

/-- The `captures` field; `Failure.captures` is `undefined`, modelled as
`none`. -/
def capturesOf : VResult T → Option (List CaptureSet)
  | .valid _ _ c => some c
  | .invalid _ _ _ c => some c
  | .failure _ _ => none

/-- The `captures` list of a non-failure result (`[]` on `Failure`, which
`bind` and `mergeResults` never read). -/
def capturesOrEmpty : VResult T → List CaptureSet
  | .valid _ _ c => c
  | .invalid _ _ _ c => c
  | .failure _ _ => []

/-- Lines 115-119 of index.ts: `if (errors.length) return invalid(...) else
return valid(...)`. -/
def finishStep (rv : U) (errors warnings : List String)
    (captures : List CaptureSet) : VResult U :=
  if errors ≠ [] then .invalid rv errors warnings captures
  else .valid rv warnings captures

/-- The shared tail of `bind` (index.ts lines 108-119) once `self` is known
to be `Valid` or `Invalid` with value `v`, errors `se` (`[]` for `Valid`),
warnings `sw` and captures `sc`. -/
def bindStep (v : T) (se sw : List String) (sc : List CaptureSet)
    (binding : T → VResult U) : VResult U :=
  let result := binding v
  let warnings := sw ++ result.warningsOf
  let errors := se ++ result.errorsOrEmpty
  match result with
  | .failure _ _ => .failure errors warnings
  | .valid rv _ rc => finishStep rv errors warnings (crossNE sc [rc])
  | .invalid rv _ _ rc => finishStep rv errors warnings (crossNE sc [rc])

/-- Source `__ValidationResult__.bind` (index.ts lines 100-120): a `Failure`
receiver is returned as-is and `binding` is never run. -/
def bind (self : VResult T) (binding : T → VResult U) : VResult U :=
  match self with
  | .failure e w => .failure e w
  | .valid v sw sc => bindStep v [] sw sc binding
  | .invalid v se sw sc => bindStep v se sw sc binding

/-- Source `get` (index.ts lines 146-148, 182-184, 215-217): one lookup slot per
`CaptureSet`; `Failure.get` is always the empty array. -/
def get (r : VResult T) (key : CKey) : List (Option Capture) :=
  match r with
  | .valid _ _ cs => cs.map (fun s => s.get key)
  | .invalid _ _ _ cs => cs.map (fun s => s.get key)
  | .failure _ _ => []

/-- Source `getCanonical` (index.ts lines 122-129): deduplicate the non-absent
lookups with a JS `Set`; return the value exactly when one remains. -/
def getCanonical (r : VResult T) (key : CKey) : Option Capture :=
  match jsSetOf ((r.get key).filterMap id) with
  | [c] => some c
  | _ => none

end VResult

/-- The `string | string[]` argument of the exported constructors
(index.ts lines 151-161, 187-199, 220-228). -/
inductive StrOrList where
  | str (s : String)
  | list (l : List String)
deriving DecidableEq, Repr

/-- Source `typeof x === 'string' ? [x] : x`. -/
def StrOrList.norm : StrOrList → List String
  | .str s => [s]
  | .list l => l

/-- Exported constructor `valid` (index.ts lines 151-161); the source
defaults are `warnings = []` and `captures = [new CaptureSet([])]`. -/
def validC {T : Type} (value : T) (warnings : StrOrList)
    (captures : List CaptureSet) : VResult T :=
  .valid value warnings.norm captures

/-- Exported constructor `invalid` (index.ts lines 187-199); the source
defaults are `errors = []`, `warnings = []`, `captures = [new CaptureSet([])]`.
Note the default `errors` is the empty array. -/
def invalidC {T : Type} (value : T) (errors warnings : StrOrList)
    (captures : List CaptureSet) : VResult T :=
  .invalid value errors.norm warnings.norm captures

/-- Exported constructor `failure` (index.ts lines 220-228). -/
def failureC {T : Type} (errors : StrOrList) (warnings : StrOrList) : VResult T :=
  .failure errors.norm warnings.norm

/-- Source `MultiMap.add` (index.ts lines 239-252): a JS-`Map`-backed multimap whose
`add` pushes onto the (auto-created) value list of the key. -/
def multiAdd (m : List (Option Nat × List CaptureSet)) (k : Option Nat)
    (cs : List CaptureSet) : List (Option Nat × List CaptureSet) :=
  if m.any (fun p => decide (p.1 = k)) then
    m.map (fun p => if p.1 = k then (p.1, p.2 ++ cs) else p)
  else m ++ [(k, cs)]

/-- Source `mergeResults` (index.ts lines 254-294). `prodOf` models
`productionContext.get` (the WeakMap from a result to the transformer that
produced it, index.ts lines 234-237); `values` walks the results up to the
first `Failure` (exclusive); the capture cross product is computed *before*
the branch on whether a `Failure` was seen, so it throws whenever the
multimap of captures is empty (zero results, or first result a `Failure`). -/
def mergeResults {T U : Type} (results : List (VResult T))
    (prodOf : VResult T → Option Nat) (mapping : List T → VResult U) :
    Except String (VResult U) :=
  let warnings := results.flatMap VResult.warningsOf
  let errors := results.flatMap VResult.errorsOrEmpty
  let walked := results.takeWhile (fun r => !r.isFailure)
  let values := walked.filterMap VResult.valueOf
  let allCaptures := walked.foldl
    (fun m r => multiAdd m (prodOf r) r.capturesOrEmpty) []
  match crossProductCaptures (allCaptures.map (fun p => p.2)) with
  | .error e => .error e
  | .ok captures =>
    if values.length = results.length then
      let value := mapping values
      match value with
      | .failure ve vw => .ok (.failure (ve ++ errors) (vw ++ warnings))
      | _ =>
        if errors ≠ [] then
          .ok (value.bind (fun foo => .invalid foo errors warnings captures))
        else
          .ok (value.bind (fun foo => .valid foo warnings captures))
    else .ok (.failure errors warnings)

/-- Source `capture(key, transformer)` (index.ts lines 59-71) read as a pure
transformer: run the inner transformer, record the fresh `{input, output}`
capture record (modelled by the identity token `cid`) under `key` in a
singleton `CaptureSet`, and attach it via `bind`. -/
def captureT {I O : Type} (key : CKey) (cid : Capture)
    (transformer : I → VResult O) : I → VResult O :=
  fun input =>
    let output := transformer input
    let captures := CaptureSet.empty.add key cid
    output.bind (fun value => .valid value [] [captures])

/-- Source `chain(a, b)` (index.ts lines 399-411) read as a pure transformer:
the `reduce` over `bind` with two stages. -/
def chain2 {A B C : Type} (a : A → VResult B) (b : B → VResult C) :
    A → VResult C :=
  fun input => (a input).bind b

/-- Source `chain(a, b, c)` (index.ts lines 399-411): the `reduce` over `bind`
folds from the left, so the three-stage chain is the left-grouped bind. -/
def chain3 {A B C D : Type} (a : A → VResult B) (b : B → VResult C)
    (c : C → VResult D) : A → VResult D :=
  fun input => ((a input).bind b).bind c

/-!
The memoized traversal engine `__transform__` (index.ts lines 296-325).

Client transformers are arbitrary functions that interact with the engine
only through the traversal function; they are modelled by the syntax `TF`:
`leaf` is a transformer that makes no sub-requests and returns a fresh
result, `seq` is a transformer that requests a sub-result for its input,
feeds a function of it to a second request, and returns that result (the
shape of `chain`'s and `capture`'s bodies). Each node carries the `Nat`
identity token `tid` of the underlying function reference.

Result instances are modelled by `Nat` identity tokens allocated from
`TState.nextInst`; `cache` is the two-level WeakMap flattened to keys
`(transformer identity, input identity)`; `prodCtx` is the
`productionContext` WeakMap; `invoked` is a ghost log of the transformer
bodies actually run (`t(i, transform)` evaluations), by pair.
-/
inductive TF where
  | leaf (tid : Nat)
  | seq (tid : Nat) (f : Nat → Nat) (a b : TF)

/-- The identity token of a transformer. -/
def TF.tid : TF → Nat
  | .leaf t => t
  | .seq t _ _ _ => t

/-- All identity tokens occurring in a transformer tree. -/
def TF.tids : TF → List Nat
  | .leaf t => [t]
  | .seq t _ a b => t :: (a.tids ++ b.tids)

/-- The identity tokens of the transformers a body can request (its strict
subterms). -/
def TF.bodyTids : TF → List Nat
  | .leaf _ => []
  | .seq _ _ a b => a.tids ++ b.tids

/-- The engine state of one top-level `transform` call. -/
structure TState where
  cache : List ((Nat × Nat) × Nat)
  prodCtx : List (Nat × Nat)
  nextInst : Nat
  invoked : List (Nat × Nat)
deriving DecidableEq, Repr

/-- The state just before a missed request runs the transformer body: the
ghost invocation log records the `(transformer, input)` pair. -/
def invokeState (t : TF) (i : Nat) (s : TState) : TState :=
  ⟨s.cache, s.prodCtx, s.nextInst, s.invoked ++ [(t.tid, i)]⟩

/-- The state after a missed request's body returned `r`: memoize `r` under
the `(transformer, input)` key and tag `r` with its producer (index.ts lines
319-320). -/
def finishState (t : TF) (i : Nat) (r : Nat) (s : TState) : TState :=
  ⟨mapSet s.cache (t.tid, i) r, mapSet s.prodCtx r t.tid, s.nextInst, s.invoked⟩

mutual

/-- The traversal function `transform` (index.ts lines 305-322): return the
cached result instance on a hit; otherwise run the transformer's body, tag
the result with its producer in `productionContext`, memoize it, and return
it. -/
def transformT (t : TF) (i : Nat) (s : TState) : Nat × TState :=
  match lookupA s.cache (t.tid, i) with
  | some r => (r, s)
  | none =>
    let rs := runBody t i (invokeState t i s)
    (rs.1, finishState t i rs.1 rs.2)
termination_by (sizeOf t, 1)

/-- Evaluation `t(i, transform)` of a client transformer's body. -/
def runBody (t : TF) (i : Nat) (s : TState) : Nat × TState :=
  match t with
  | .leaf _ => (s.nextInst, ⟨s.cache, s.prodCtx, s.nextInst + 1, s.invoked⟩)
  | .seq _ f a b =>
    let rs1 := transformT a i s
    transformT b (f rs1.1) rs1.2
termination_by (sizeOf t, 0)

end

/-- The state `__transform__` allocates for one top-level call
(index.ts lines 300-303): empty cache, empty production context. -/
def initTState : TState := ⟨[], [], 0, []⟩

/-- Source `__transform__(input, transformer)` (index.ts lines 296-325): the root
transformer's body is invoked directly, not through the traversal function. -/
def runTransform (t : TF) (i : Nat) : Nat × TState := runBody t i initTState

/-- Contract of one engine activity over identity tokens `ts` taking state
`s` to `s'` with ghost invocation increment `d`: the log grows by exactly
`d`; every newly invoked pair belongs to `ts`, was uncached before and is
cached after; no pair is invoked twice; cached associations persist
unchanged; and every new cache key belongs to `ts`. -/
def EngineStep (ts : List Nat) (s s' : TState) (d : List (Nat × Nat)) : Prop :=
  s'.invoked = s.invoked ++ d ∧
  (∀ p ∈ d, p.1 ∈ ts) ∧
  (∀ p ∈ d, lookupA s.cache p = none) ∧
  (∀ p ∈ d, (lookupA s'.cache p).isSome = true) ∧
  d.Nodup ∧
  (∀ k v, lookupA s.cache k = some v → lookupA s'.cache k = some v) ∧
  (∀ k, lookupA s.cache k = none → (lookupA s'.cache k).isSome = true →
    k.1 ∈ ts)

/-! ### Lemmas about the JS collection models -/

theorem jsSetAdd_mem {α : Type} [DecidableEq α] (l : List α) (a x : α) :
    x ∈ jsSetAdd l a ↔ x ∈ l ∨ x = a := by
  unfold jsSetAdd
  split
  case isTrue h =>
    constructor
    · exact fun hx => Or.inl hx
    · rintro (hx | rfl)
      · exact hx
      · exact h
  case isFalse h => simp

theorem mem_foldl_jsSetAdd {α : Type} [DecidableEq α] (l acc : List α) (x : α) :
    x ∈ l.foldl jsSetAdd acc ↔ x ∈ acc ∨ x ∈ l := by
  induction l generalizing acc with
  | nil => simp
  | cons a t ih =>
    simp only [List.foldl_cons, ih, jsSetAdd_mem, List.mem_cons]
    tauto

theorem jsSetAdd_nodup {α : Type} [DecidableEq α] (l : List α) (a : α)
    (h : l.Nodup) : (jsSetAdd l a).Nodup := by
  unfold jsSetAdd
  split
  · exact h
  case isFalse hn => simpa using List.Nodup.append h (List.nodup_singleton a) (by simpa using hn)

theorem foldl_jsSetAdd_nodup {α : Type} [DecidableEq α] (l acc : List α)
    (h : acc.Nodup) : (l.foldl jsSetAdd acc).Nodup := by
  induction l generalizing acc with
  | nil => exact h
  | cons a t ih => exact ih _ (jsSetAdd_nodup _ _ h)

theorem jsSetOf_mem {α : Type} [DecidableEq α] (l : List α) (x : α) :
    x ∈ jsSetOf l ↔ x ∈ l := by
  unfold jsSetOf
  simp [mem_foldl_jsSetAdd]

theorem jsSetOf_nodup {α : Type} [DecidableEq α] (l : List α) :
    (jsSetOf l).Nodup :=
  foldl_jsSetAdd_nodup l [] List.nodup_nil

theorem nodup_singleton_of_mem_iff {α : Type} (l : List α) (c : α)
    (hnd : l.Nodup) (hmem : ∀ x, x ∈ l ↔ x = c) : l = [c] := by
  match l, hnd with
  | [], _ => exact absurd ((hmem c).2 rfl) (by simp)
  | [a], _ =>
    have ha : a = c := (hmem a).1 (by simp)
    rw [ha]
  | a :: b :: t, hnd =>
    have ha : a = c := (hmem a).1 (by simp)
    have hb : b = c := (hmem b).1 (by simp)
    have : a ≠ b := by
      intro hab
      exact (List.nodup_cons.1 hnd).1 (hab ▸ List.mem_cons_self b t)
    exact absurd (ha.trans hb.symm) this

theorem jsSetOf_eq_singleton_iff {α : Type} [DecidableEq α] (l : List α) (c : α) :
    jsSetOf l = [c] ↔ c ∈ l ∧ ∀ x ∈ l, x = c := by
  constructor
  · intro h
    refine ⟨(jsSetOf_mem l c).1 (h ▸ List.mem_singleton_self c), fun x hx => ?_⟩
    have := (jsSetOf_mem l x).2 hx
    rw [h] at this
    exact List.eq_of_mem_singleton this
  · rintro ⟨hc, hall⟩
    refine nodup_singleton_of_mem_iff _ _ (jsSetOf_nodup l) fun x => ?_
    rw [jsSetOf_mem]
    exact ⟨fun hx => hall x hx, fun hx => hx ▸ hc⟩

theorem lookupA_mapSet_self {α β : Type} [DecidableEq α] (m : List (α × β))
    (k : α) (v : β) : lookupA (mapSet m k v) k = some v := by
  unfold mapSet
  split
  case isTrue h =>
    induction m with
    | nil => simp at h
    | cons p ps ih =>
      by_cases hp : p.1 = k
      · simp [lookupA, hp]
      · have h' : ps.any (fun q => decide (q.1 = k)) = true := by
          simpa [hp] using h
        simpa [lookupA, hp] using ih h'
  case isFalse h =>
    induction m with
    | nil => simp [lookupA]
    | cons p ps ih =>
      have hp : ¬ p.1 = k := by
        intro hk
        exact h (by simp [List.any_cons, hk])
      have h' : ¬ ps.any (fun q => decide (q.1 = k)) = true := by
        intro hk
        exact h (by simp [List.any_cons, hk])
      simpa [lookupA, hp] using ih h'

theorem lookupA_mapSet_ne {α β : Type} [DecidableEq α] (m : List (α × β))
    (k k' : α) (v : β) (hne : k' ≠ k) :
    lookupA (mapSet m k v) k' = lookupA m k' := by
  have hkk : ¬ (k = k') := fun hk => hne hk.symm
  have hmap : ∀ (m : List (α × β)),
      lookupA (m.map (fun p => if p.1 = k then (k, v) else p)) k' = lookupA m k' := by
    intro m
    induction m with
    | nil => rfl
    | cons p ps ih =>
      by_cases hp : p.1 = k
      · have h2 : ¬ (p.1 = k') := by rw [hp]; exact hkk
        simp [lookupA, hp, hkk, h2, ih]
      · simp only [List.map_cons, lookupA, if_neg hp]
        by_cases hp' : p.1 = k' <;> simp [hp', ih]
  have happ : ∀ (m : List (α × β)),
      lookupA (m ++ [(k, v)]) k' = lookupA m k' := by
    intro m
    induction m with
    | nil => simp [lookupA, hkk]
    | cons p ps ih => by_cases hp : p.1 = k' <;> simp [lookupA, hp, ih]
  unfold mapSet
  split
  · exact hmap m
  · exact happ m

/-! ### Lemmas about `CaptureSet` -/

theorem lookupA_mapDelete_self {α β : Type} [DecidableEq α] (m : List (α × β))
    (k : α) : lookupA (mapDelete m k) k = none := by
  induction m with
  | nil => rfl
  | cons p ps ih =>
    unfold mapDelete at ih ⊢
    by_cases hp : p.1 = k
    · simpa [List.filter_cons, hp] using ih
    · simpa [List.filter_cons, hp, lookupA] using ih

theorem CaptureSet.add_overloaded_unchanged (s : CaptureSet) (k : CKey)
    (c : Capture) (h : k ∈ s.overloadedKeys) : s.add k c = s := by
  unfold CaptureSet.add
  rw [if_pos h]

theorem CaptureSet.add_second_claim (s : CaptureSet) (k : CKey) (c : Capture)
    (h1 : k ∉ s.overloadedKeys) (h2 : mapHas s.definedKeys k = true) :
    (s.add k c).get k = none ∧ k ∈ (s.add k c).overloadedKeys := by
  unfold CaptureSet.add CaptureSet.get
  rw [if_neg h1, if_pos h2]
  exact ⟨lookupA_mapDelete_self _ _, (jsSetAdd_mem _ _ _).2 (Or.inr rfl)⟩

theorem CaptureSet.mem_overloaded_add (s : CaptureSet) (k' : CKey) (c : Capture)
    (k : CKey) (h : k ∈ s.overloadedKeys) : k ∈ (s.add k' c).overloadedKeys := by
  by_cases h1 : k' ∈ s.overloadedKeys
  · simpa [CaptureSet.add, h1] using h
  · by_cases h2 : mapHas s.definedKeys k' = true
    · simpa [CaptureSet.add, h1, h2] using (jsSetAdd_mem _ _ _).2 (Or.inl h)
    · simpa [CaptureSet.add, h1, h2] using h

theorem CaptureSet.mem_overloaded_foldl_add (pairs : List (CKey × Capture))
    (s : CaptureSet) (k : CKey) (h : k ∈ s.overloadedKeys) :
    k ∈ (pairs.foldl (fun a p => a.add p.1 p.2) s).overloadedKeys := by
  induction pairs generalizing s with
  | nil => exact h
  | cons p ps ih => exact ih _ (CaptureSet.mem_overloaded_add _ _ _ _ h)

theorem CaptureSet.mem_overloaded_mergeChild (acc child : CaptureSet) (k : CKey)
    (h : k ∈ acc.overloadedKeys ∨ k ∈ child.overloadedKeys) :
    k ∈ (CaptureSet.mergeChild acc child).overloadedKeys := by
  unfold CaptureSet.mergeChild
  exact CaptureSet.mem_overloaded_foldl_add _ _ _
    ((mem_foldl_jsSetAdd _ _ _).2 h)

theorem CaptureSet.mem_overloaded_foldl_mergeChild (children : List CaptureSet)
    (acc : CaptureSet) (k : CKey)
    (h : k ∈ acc.overloadedKeys ∨ ∃ child ∈ children, k ∈ child.overloadedKeys) :
    k ∈ (children.foldl CaptureSet.mergeChild acc).overloadedKeys := by
  induction children generalizing acc with
  | nil => simpa using h
  | cons c cs ih =>
    rcases h with h | ⟨child, hmem, hk⟩
    · exact ih _ (Or.inl (CaptureSet.mem_overloaded_mergeChild _ _ _ (Or.inl h)))
    · rcases List.mem_cons.1 hmem with rfl | hmem'
      · exact ih _ (Or.inl (CaptureSet.mem_overloaded_mergeChild _ _ _ (Or.inr hk)))
      · exact ih _ (Or.inr ⟨child, hmem', hk⟩)

/-! ### Claim C4 -/

/-- C4 counterexample. The claim asserts (a) adding the identical
`(key, capture)` pair again is idempotent and (b) a key overloaded in any
child never resolves to a concrete `Capture` after a merge. Both fail on the
code: (a) a second `add` of the identical pair `(0, 5)` deletes the mapping
and marks key `0` overloaded; (b) merging a child that defines key `0` with a
later child in which `0` is overloaded leaves the concrete mapping `0 ↦ 5`
resolvable, because the constructor copies a child's overloaded keys without
deleting an earlier child's defined entry. -/
theorem C4_captureset_counterexample :
    (((CaptureSet.empty.add 0 5).add 0 5).get 0 = none ∧
      (CaptureSet.empty.add 0 5).add 0 5 ≠ CaptureSet.empty.add 0 5) ∧
    (0 ∈ ((CaptureSet.empty.add 0 5).add 0 6).overloadedKeys ∧
      (CaptureSet.ofSets [CaptureSet.empty.add 0 5,
          (CaptureSet.empty.add 0 5).add 0 6]).get 0 = some 5) := by
  decide

/-- C4 amended. When a `CaptureSet` is built by merging child
`CaptureSet`s: a second claim for an already-defined, not-yet-overloaded key —
whether the identical capture or a different one — marks the key overloaded
and removes its concrete mapping; once a key is overloaded in a set, `add`
leaves the set unchanged, so later adds never restore a concrete mapping for
it; and a key overloaded in any child is in the merged set's overloaded-key
set (though the merge does not remove a concrete mapping that an earlier
child already established for that key). -/
theorem C4_captureset_overload (s : CaptureSet) (k : CKey) (c : Capture)
    (children : List CaptureSet) (child : CaptureSet) :
    (k ∉ s.overloadedKeys → mapHas s.definedKeys k = true →
      (s.add k c).get k = none ∧ k ∈ (s.add k c).overloadedKeys) ∧
    (k ∈ s.overloadedKeys → s.add k c = s) ∧
    (child ∈ children → k ∈ child.overloadedKeys →
      k ∈ (CaptureSet.ofSets children).overloadedKeys) := by
  refine ⟨fun h1 h2 => CaptureSet.add_second_claim s k c h1 h2,
    fun h => CaptureSet.add_overloaded_unchanged s k c h,
    fun hmem hk => ?_⟩
  exact CaptureSet.mem_overloaded_foldl_mergeChild children CaptureSet.empty k
    (Or.inr ⟨child, hmem, hk⟩)

/-- Witness for `C4_captureset_overload` at concrete inputs. -/
theorem C4_captureset_overload_witness :
    (((CaptureSet.empty.add 0 5).add 0 6).get 0 = none ∧
      0 ∈ ((CaptureSet.empty.add 0 5).add 0 6).overloadedKeys) ∧
    ((⟨[0], []⟩ : CaptureSet).add 0 7 = ⟨[0], []⟩) ∧
    0 ∈ (CaptureSet.ofSets [(⟨[0], []⟩ : CaptureSet)]).overloadedKeys :=
  ⟨(C4_captureset_overload (CaptureSet.empty.add 0 5) 0 6 [⟨[0], []⟩]
      ⟨[0], []⟩).1 (by decide) (by decide),
   (C4_captureset_overload (⟨[0], []⟩ : CaptureSet) 0 7 [⟨[0], []⟩]
      ⟨[0], []⟩).2.1 (by decide),
   (C4_captureset_overload (⟨[0], []⟩ : CaptureSet) 0 7 [⟨[0], []⟩]
      ⟨[0], []⟩).2.2 (by decide) (by decide)⟩

/-! ### Claim C7 -/

/-- C7. `crossProductCaptures` raises an error (rather than returning a
result) when given zero sibling lists, and returns the single list unchanged
when given exactly one. -/
theorem C7_crossProduct_zero_and_one :
    crossProductCaptures [] =
      .error "cross product is undefined when no CaptureSet arrays are provided" ∧
    ∀ x : List CaptureSet, crossProductCaptures [x] = .ok x :=
  ⟨rfl, fun _ => rfl⟩

/-! ### Claim C10 -/

theorem crossNE_final_empty (ls : List (List CaptureSet))
    (hls : ∀ l ∈ ls, l ≠ []) (a : List CaptureSet) (ha : a ≠ []) :
    crossNE a (ls ++ [[]]) = [] := by
  induction ls generalizing a with
  | nil => simp [crossNE, ha]
  | cons l t ih =>
    have hl : l ≠ [] := hls l (by simp)
    have ht : ∀ x ∈ t, x ≠ [] := fun x hx => hls x (by simp [hx])
    have hbars : crossNE l (t ++ [[]]) = [] := ih ht l hl
    simp [List.cons_append, crossNE, hbars, ha]

/-- C10. An empty capture-set list in leading position is skipped as an
identity element of the cross product, whereas an empty *final* sibling list
annihilates the product of the preceding non-empty siblings. -/
theorem C10_crossProduct_empty_sibling (rest : List (List CaptureSet))
    (ls : List (List CaptureSet)) :
    (rest ≠ [] → crossProductCaptures ([] :: rest) = crossProductCaptures rest) ∧
    (ls ≠ [] → (∀ l ∈ ls, l ≠ []) →
      crossProductCaptures (ls ++ [[]]) = .ok []) := by
  constructor
  · intro h
    match rest, h with
    | r :: rs, _ => simp [crossProductCaptures, crossNE]
  · intro h hall
    match ls, h with
    | a :: t, _ =>
      have ha : a ≠ [] := hall a (by simp)
      have ht : ∀ x ∈ t, x ≠ [] := fun x hx => hall x (by simp [hx])
      simp [crossProductCaptures, crossNE_final_empty t ht a ha]

/-- Witness for `C10_crossProduct_empty_sibling` at concrete inputs. -/
theorem C10_crossProduct_empty_sibling_witness :
    crossProductCaptures [[], [CaptureSet.empty]] =
      crossProductCaptures [[CaptureSet.empty]] ∧
    crossProductCaptures [[CaptureSet.empty], []] = .ok [] :=
  ⟨(C10_crossProduct_empty_sibling [[CaptureSet.empty]] [[CaptureSet.empty]]).1
      (by decide),
   (C10_crossProduct_empty_sibling [[CaptureSet.empty]] [[CaptureSet.empty]]).2
      (by decide) (by decide)⟩

/-! ### Claim C9 -/

/-- C9. If the captured transformer yields a `Failure` then
`capture(key, transformer)` returns that very failure (the `bind` in
`capture` passes a `Failure` receiver through untouched), and no capture for
the key is retrievable: `get` on the returned result is the empty sequence. -/
theorem C9_capture_failure_no_record {I O : Type} (key : CKey) (cid : Capture)
    (t : I → VResult O) (i : I) (e w : List String)
    (h : t i = .failure e w) :
    captureT key cid t i = .failure e w ∧ (captureT key cid t i).get key = [] := by
  unfold captureT
  rw [h]
  exact ⟨rfl, rfl⟩

/-- Witness for `C9_capture_failure_no_record` at concrete inputs. -/
theorem C9_capture_failure_no_record_witness :
    captureT 0 3 (fun _ : Nat => (VResult.failure ["e"] ["w"] : VResult Nat)) 4 =
      .failure ["e"] ["w"] ∧
    (captureT 0 3 (fun _ : Nat => (VResult.failure ["e"] ["w"] : VResult Nat)) 4).get 0 = [] :=
  C9_capture_failure_no_record 0 3 _ 4 ["e"] ["w"] rfl

/-! ### Observational lemmas about the result accessors and `bind` -/

@[simp] theorem VResult.warningsOf_valid {T : Type} (v : T) (w : List String)
    (c : List CaptureSet) : (VResult.valid v w c).warningsOf = w := rfl

@[simp] theorem VResult.warningsOf_invalid {T : Type} (v : T) (e w : List String)
    (c : List CaptureSet) : (VResult.invalid v e w c).warningsOf = w := rfl

@[simp] theorem VResult.warningsOf_failure {T : Type} (e w : List String) :
    (VResult.failure e w : VResult T).warningsOf = w := rfl

@[simp] theorem VResult.errorsOrEmpty_valid {T : Type} (v : T) (w : List String)
    (c : List CaptureSet) : (VResult.valid v w c).errorsOrEmpty = [] := rfl

@[simp] theorem VResult.errorsOrEmpty_invalid {T : Type} (v : T) (e w : List String)
    (c : List CaptureSet) : (VResult.invalid v e w c).errorsOrEmpty = e := rfl

@[simp] theorem VResult.errorsOrEmpty_failure {T : Type} (e w : List String) :
    (VResult.failure e w : VResult T).errorsOrEmpty = e := rfl

@[simp] theorem VResult.valueOf_valid {T : Type} (v : T) (w : List String)
    (c : List CaptureSet) : (VResult.valid v w c).valueOf = some v := rfl

@[simp] theorem VResult.valueOf_invalid {T : Type} (v : T) (e w : List String)
    (c : List CaptureSet) : (VResult.invalid v e w c).valueOf = some v := rfl

@[simp] theorem VResult.valueOf_failure {T : Type} (e w : List String) :
    (VResult.failure e w : VResult T).valueOf = none := rfl

@[simp] theorem VResult.capturesOrEmpty_valid {T : Type} (v : T) (w : List String)
    (c : List CaptureSet) : (VResult.valid v w c).capturesOrEmpty = c := rfl

@[simp] theorem VResult.capturesOrEmpty_invalid {T : Type} (v : T)
    (e w : List String) (c : List CaptureSet) :
    (VResult.invalid v e w c).capturesOrEmpty = c := rfl

@[simp] theorem VResult.isInvalid_valid {T : Type} (v : T) (w : List String)
    (c : List CaptureSet) : (VResult.valid v w c).isInvalid = false := rfl

@[simp] theorem VResult.isInvalid_invalid {T : Type} (v : T) (e w : List String)
    (c : List CaptureSet) : (VResult.invalid v e w c).isInvalid = true := rfl

@[simp] theorem VResult.isInvalid_failure {T : Type} (e w : List String) :
    (VResult.failure e w : VResult T).isInvalid = false := rfl

theorem VResult.finishStep_warningsOf {U : Type} (rv : U) (e w : List String)
    (c : List CaptureSet) : (VResult.finishStep rv e w c).warningsOf = w := by
  unfold VResult.finishStep
  by_cases h : e ≠ [] <;> simp [h]

theorem VResult.finishStep_errorsOrEmpty {U : Type} (rv : U) (e w : List String)
    (c : List CaptureSet) : (VResult.finishStep rv e w c).errorsOrEmpty = e := by
  unfold VResult.finishStep
  by_cases h : e = [] <;> simp [h]

theorem VResult.finishStep_valueOf {U : Type} (rv : U) (e w : List String)
    (c : List CaptureSet) : (VResult.finishStep rv e w c).valueOf = some rv := by
  unfold VResult.finishStep
  by_cases h : e ≠ [] <;> simp [h]

theorem VResult.finishStep_isInvalid {U : Type} (rv : U) (e w : List String)
    (c : List CaptureSet) :
    (VResult.finishStep rv e w c).isInvalid = true ↔ e ≠ [] := by
  unfold VResult.finishStep
  by_cases h : e ≠ [] <;> simp [h]

theorem VResult.bindStep_warningsOf {T U : Type} (v : T) (se sw : List String)
    (sc : List CaptureSet) (f : T → VResult U) :
    (VResult.bindStep v se sw sc f).warningsOf = sw ++ (f v).warningsOf := by
  unfold VResult.bindStep
  cases h : f v <;> simp [h, VResult.finishStep_warningsOf]

theorem VResult.bindStep_errorsOrEmpty {T U : Type} (v : T) (se sw : List String)
    (sc : List CaptureSet) (f : T → VResult U) :
    (VResult.bindStep v se sw sc f).errorsOrEmpty = se ++ (f v).errorsOrEmpty := by
  unfold VResult.bindStep
  cases h : f v <;> simp [h, VResult.finishStep_errorsOrEmpty]

theorem VResult.bindStep_valueOf {T U : Type} (v : T) (se sw : List String)
    (sc : List CaptureSet) (f : T → VResult U) :
    (VResult.bindStep v se sw sc f).valueOf = (f v).valueOf := by
  unfold VResult.bindStep
  cases h : f v <;> simp [h, VResult.finishStep_valueOf]

theorem VResult.bindStep_isInvalid_errors {T U : Type} (v : T)
    (se sw : List String) (sc : List CaptureSet) (f : T → VResult U)
    (h : (VResult.bindStep v se sw sc f).isInvalid = true) :
    (VResult.bindStep v se sw sc f).errorsOrEmpty ≠ [] := by
  rw [VResult.bindStep_errorsOrEmpty]
  revert h
  unfold VResult.bindStep
  cases hf : f v with
  | failure e w => simp
  | valid nv nw nc =>
    rw [VResult.finishStep_isInvalid]
    simp [hf]
  | invalid nv ne nw nc =>
    rw [VResult.finishStep_isInvalid]
    simp [hf]

theorem VResult.bind_warningsOf_of_value {T U : Type} (r : VResult T) (v : T)
    (f : T → VResult U) (h : r.valueOf = some v) :
    (r.bind f).warningsOf = r.warningsOf ++ (f v).warningsOf := by
  cases r with
  | failure e w => simp at h
  | valid rv w c =>
    obtain rfl : rv = v := by simpa using h
    show (VResult.bindStep rv [] w c f).warningsOf = _
    rw [VResult.bindStep_warningsOf]
    simp
  | invalid rv e w c =>
    obtain rfl : rv = v := by simpa using h
    show (VResult.bindStep rv e w c f).warningsOf = _
    rw [VResult.bindStep_warningsOf]
    simp

theorem VResult.bind_errorsOrEmpty_of_value {T U : Type} (r : VResult T) (v : T)
    (f : T → VResult U) (h : r.valueOf = some v) :
    (r.bind f).errorsOrEmpty = r.errorsOrEmpty ++ (f v).errorsOrEmpty := by
  cases r with
  | failure e w => simp at h
  | valid rv w c =>
    obtain rfl : rv = v := by simpa using h
    show (VResult.bindStep rv [] w c f).errorsOrEmpty = _
    rw [VResult.bindStep_errorsOrEmpty]
    simp
  | invalid rv e w c =>
    obtain rfl : rv = v := by simpa using h
    show (VResult.bindStep rv e w c f).errorsOrEmpty = _
    rw [VResult.bindStep_errorsOrEmpty]
    simp

theorem VResult.bind_valueOf_of_value {T U : Type} (r : VResult T) (v : T)
    (f : T → VResult U) (h : r.valueOf = some v) :
    (r.bind f).valueOf = (f v).valueOf := by
  cases r with
  | failure e w => simp at h
  | valid rv w c =>
    obtain rfl : rv = v := by simpa using h
    exact VResult.bindStep_valueOf rv [] w c f
  | invalid rv e w c =>
    obtain rfl : rv = v := by simpa using h
    exact VResult.bindStep_valueOf rv e w c f

/-! ### Claim C1 -/

/-- C1 counterexample. The exported constructor `invalid` defaults its
`errors` argument to the empty array, so `invalid(0)` is an `Invalid` result
with zero errors: the claimed invariant `isInvalid(r) ⇒ r.errors.length > 0`
fails for that choice of constructor arguments. -/
theorem C1_invalid_empty_errors_counterexample :
    ¬ ((invalidC (0 : Nat) (.list []) (.list []) [CaptureSet.empty]).isInvalid = true →
       (invalidC (0 : Nat) (.list []) (.list []) [CaptureSet.empty]).errorsOrEmpty ≠ []) := by
  decide

/-- C1 amended. For every result: a `Failure` has no value and no
captures; an `Invalid` has a value; a `Valid` has empty errors and its
`errors` field is absent. The exported constructor `invalid` stores exactly
the errors it is given — so its string overload always yields at least one
error, but an explicitly (or by default) empty errors array yields an
`Invalid` with no errors — and `bind` itself only ever builds an `Invalid`
with at least one error. -/
theorem C1_result_kind_invariants {T U : Type} (r : VResult T) (v : T)
    (es : List String) (e : String) (w : StrOrList) (c : List CaptureSet)
    (f : T → VResult U) :
    (r.isFailure = true → r.valueOf = none ∧ r.capturesOf = none) ∧
    (r.isInvalid = true → (r.valueOf).isSome = true) ∧
    (r.isValid = true → r.errorsOrEmpty = [] ∧ r.errorsOf = none) ∧
    ((invalidC v (.list es) w c).errorsOf = some es) ∧
    ((invalidC v (.str e) w c).errorsOrEmpty = [e]) ∧
    ((r.bind f).isInvalid = true → (r.bind f).errorsOrEmpty ≠ []) := by
  refine ⟨?_, ?_, ?_, rfl, rfl, ?_⟩
  · cases r <;> simp [VResult.isFailure, VResult.valueOf, VResult.capturesOf]
  · cases r <;> simp [VResult.isInvalid, VResult.valueOf]
  · cases r <;> simp [VResult.isValid, VResult.errorsOrEmpty, VResult.errorsOf]
  · cases r with
    | failure e' w' => simp [VResult.bind, VResult.isInvalid]
    | valid rv w' c' => exact fun h => VResult.bindStep_isInvalid_errors _ _ _ _ _ h
    | invalid rv e' w' c' => exact fun h => VResult.bindStep_isInvalid_errors _ _ _ _ _ h

/-- Witness for `C1_result_kind_invariants` at concrete inputs. -/
theorem C1_result_kind_invariants_witness :
    ((VResult.failure ["e"] [] : VResult Nat).valueOf = none ∧
      (VResult.failure ["e"] [] : VResult Nat).capturesOf = none) ∧
    ((VResult.invalid (1 : Nat) ["e"] [] []).valueOf).isSome = true ∧
    ((VResult.valid (1 : Nat) [] []).errorsOrEmpty = [] ∧
      (VResult.valid (1 : Nat) [] []).errorsOf = none) ∧
    (((VResult.valid (1 : Nat) [] [CaptureSet.empty]).bind
        (fun n => VResult.invalid n ["e"] [] [CaptureSet.empty])).errorsOrEmpty ≠ []) :=
  ⟨(C1_result_kind_invariants (U := Nat) (VResult.failure ["e"] []) 0 [] "x"
      (.list []) [] (fun _ => VResult.valid 0 [] [])).1 rfl,
   (C1_result_kind_invariants (U := Nat) (VResult.invalid (1 : Nat) ["e"] [] []) 0 [] "x"
      (.list []) [] (fun _ => VResult.valid 0 [] [])).2.1 rfl,
   (C1_result_kind_invariants (U := Nat) (VResult.valid (1 : Nat) [] []) 0 [] "x"
      (.list []) [] (fun _ => VResult.valid 0 [] [])).2.2.1 rfl,
   (C1_result_kind_invariants (VResult.valid (1 : Nat) [] [CaptureSet.empty]) 0 [] "x"
      (.list []) [] (fun n => VResult.invalid n ["e"] [] [CaptureSet.empty])).2.2.2.2.2
      (by decide)⟩


/-! ### Claim C6 -/

theorem VResult.getCanonical_eq_some_iff {T : Type} (r : VResult T) (k : CKey)
    (c : Capture) :
    r.getCanonical k = some c ↔
      (c ∈ (r.get k).filterMap id ∧ ∀ x ∈ (r.get k).filterMap id, x = c) := by
  unfold VResult.getCanonical
  rw [← jsSetOf_eq_singleton_iff]
  rcases h : jsSetOf ((r.get k).filterMap id) with _ | ⟨a, _ | ⟨b, t⟩⟩ <;> simp [h]

theorem CaptureSet.ofSets_two_same_key (k : CKey) (c1 c2 : Capture) :
    CaptureSet.ofSets [CaptureSet.empty.add k c1, CaptureSet.empty.add k c2] =
      ⟨[k], []⟩ := by
  simp [CaptureSet.ofSets, CaptureSet.mergeChild, CaptureSet.add, CaptureSet.empty,
    mapHas, jsSetAdd, mapDelete, lookupA]

/-- C6. `getCanonical` yields a capture exactly when the non-absent
lookups of the key across the result's capture sets contain exactly one
distinct value, and absent otherwise; in particular capturing the same key
twice with differing captures within one merge scope yields absent, while the
same capture present in every world yields that capture. -/
theorem C6_getCanonical_unique_value {T : Type} (r : VResult T) (k : CKey)
    (c c1 c2 : Capture) (v : T) (w : List String) :
    ((r.getCanonical k).isSome = true ↔
      ((r.get k).filterMap id ≠ [] ∧
        ∀ x ∈ (r.get k).filterMap id, ∀ y ∈ (r.get k).filterMap id, x = y)) ∧
    (∀ c', r.getCanonical k = some c' →
      c' ∈ (r.get k).filterMap id ∧ ∀ x ∈ (r.get k).filterMap id, x = c') ∧
    (c1 ≠ c2 →
      (VResult.valid v w [CaptureSet.ofSets
        [CaptureSet.empty.add k c1, CaptureSet.empty.add k c2]]).getCanonical k
        = none) ∧
    (VResult.valid v w
        [CaptureSet.empty.add k c, CaptureSet.empty.add k c]).getCanonical k
      = some c := by
  refine ⟨?_, fun c' h => (VResult.getCanonical_eq_some_iff r k c').1 h, ?_, ?_⟩
  · rw [Option.isSome_iff_exists]
    constructor
    · rintro ⟨c', hc'⟩
      obtain ⟨hmem, hall⟩ := (VResult.getCanonical_eq_some_iff r k c').1 hc'
      exact ⟨List.ne_nil_of_mem hmem,
        fun x hx y hy => (hall x hx).trans (hall y hy).symm⟩
    · rintro ⟨hne, hall⟩
      obtain ⟨a, ha⟩ := List.exists_mem_of_ne_nil _ hne
      exact ⟨a, (VResult.getCanonical_eq_some_iff r k a).2
        ⟨ha, fun x hx => hall x hx a ha⟩⟩
  · intro _
    rw [VResult.getCanonical, VResult.get, CaptureSet.ofSets_two_same_key]
    simp [CaptureSet.get, lookupA, jsSetOf]
  · rw [VResult.getCanonical, VResult.get]
    simp [CaptureSet.get, CaptureSet.add, CaptureSet.empty, mapHas, lookupA,
      jsSetOf, jsSetAdd]

/-- Witness for `C6_getCanonical_unique_value` at concrete inputs. -/
theorem C6_getCanonical_unique_value_witness :
    (VResult.valid (0 : Nat) [] [CaptureSet.ofSets
      [CaptureSet.empty.add 1 8, CaptureSet.empty.add 1 9]]).getCanonical 1
      = none ∧
    (VResult.valid (0 : Nat) []
      [CaptureSet.empty.add 1 8, CaptureSet.empty.add 1 8]).getCanonical 1
      = some 8 :=
  ⟨(C6_getCanonical_unique_value (VResult.valid (0 : Nat) [] []) 1 8 8 9 0
      []).2.2.1 (by decide),
   (C6_getCanonical_unique_value (VResult.valid (0 : Nat) [] []) 1 8 8 9 0
      []).2.2.2⟩

/-! ### Claim C2 -/

theorem VResult.finishStep_of_ne {U : Type} (rv : U) (e w : List String)
    (c : List CaptureSet) (h : e ≠ []) :
    VResult.finishStep rv e w c = .invalid rv e w c := by
  unfold VResult.finishStep
  rw [if_pos h]

theorem VResult.finishStep_of_eq {U : Type} (rv : U) (e w : List String)
    (c : List CaptureSet) (h : e = []) :
    VResult.finishStep rv e w c = .valid rv w c := by
  unfold VResult.finishStep
  simp [h]

theorem VResult.bind_of_next_failure {T U : Type} (r : VResult T) (v : T)
    (f : T → VResult U) (h : r.valueOf = some v)
    (hf : (f v).isFailure = true) :
    r.bind f = .failure (r.errorsOrEmpty ++ (f v).errorsOrEmpty)
      (r.warningsOf ++ (f v).warningsOf) := by
  cases r with
  | failure e w => simp at h
  | valid rv w c =>
    obtain rfl : rv = v := by simpa using h
    show VResult.bindStep rv [] w c f = _
    unfold VResult.bindStep
    cases hfv : f rv <;> simp_all [VResult.isFailure]
  | invalid rv e w c =>
    obtain rfl : rv = v := by simpa using h
    show VResult.bindStep rv e w c f = _
    unfold VResult.bindStep
    cases hfv : f rv <;> simp_all [VResult.isFailure]

theorem VResult.bind_of_next_value {T U : Type} (r : VResult T) (v : T)
    (f : T → VResult U) (nv : U) (h : r.valueOf = some v)
    (hnv : (f v).valueOf = some nv) :
    r.bind f = VResult.finishStep nv
      (r.errorsOrEmpty ++ (f v).errorsOrEmpty)
      (r.warningsOf ++ (f v).warningsOf)
      (crossNE r.capturesOrEmpty [(f v).capturesOrEmpty]) := by
  cases r with
  | failure e w => simp at h
  | valid rv w c =>
    obtain rfl : rv = v := by simpa using h
    show VResult.bindStep rv [] w c f = _
    unfold VResult.bindStep
    cases hfv : f rv <;> simp_all
  | invalid rv e w c =>
    obtain rfl : rv = v := by simpa using h
    show VResult.bindStep rv e w c f = _
    unfold VResult.bindStep
    cases hfv : f rv <;> simp_all

/-- C2. `bind` on a `Failure` receiver returns that very result for every
continuation (so the continuation is irrelevant, i.e. never invoked);
otherwise the combined warnings are receiver-then-next and likewise for the
errors (absent errors read as empty); a `Failure` continuation result turns
the whole bind into a `Failure` carrying the combined diagnostics, and a
non-failure continuation result yields `Invalid` with the combined
diagnostics and crossed captures when the combined errors are non-empty, else
`Valid`. -/
theorem C2_bind_cases {T U : Type} (e w : List String) (f : T → VResult U)
    (r : VResult T) (v : T) (nv : U) :
    ((VResult.failure e w : VResult T).bind f = .failure e w) ∧
    (r.valueOf = some v →
      ((r.bind f).warningsOf = r.warningsOf ++ (f v).warningsOf ∧
       (r.bind f).errorsOrEmpty = r.errorsOrEmpty ++ (f v).errorsOrEmpty) ∧
      ((f v).isFailure = true →
        r.bind f = .failure (r.errorsOrEmpty ++ (f v).errorsOrEmpty)
          (r.warningsOf ++ (f v).warningsOf)) ∧
      ((f v).valueOf = some nv →
        (r.errorsOrEmpty ++ (f v).errorsOrEmpty ≠ [] →
          r.bind f = .invalid nv (r.errorsOrEmpty ++ (f v).errorsOrEmpty)
            (r.warningsOf ++ (f v).warningsOf)
            (crossNE r.capturesOrEmpty [(f v).capturesOrEmpty])) ∧
        (r.errorsOrEmpty ++ (f v).errorsOrEmpty = [] →
          r.bind f = .valid nv (r.warningsOf ++ (f v).warningsOf)
            (crossNE r.capturesOrEmpty [(f v).capturesOrEmpty])))) := by
  refine ⟨rfl, fun hv => ⟨⟨VResult.bind_warningsOf_of_value r v f hv,
    VResult.bind_errorsOrEmpty_of_value r v f hv⟩,
    fun hf => VResult.bind_of_next_failure r v f hv hf,
    fun hnv => ⟨fun hne => ?_, fun heq => ?_⟩⟩⟩
  · rw [VResult.bind_of_next_value r v f nv hv hnv,
      VResult.finishStep_of_ne _ _ _ _ hne]
  · rw [VResult.bind_of_next_value r v f nv hv hnv,
      VResult.finishStep_of_eq _ _ _ _ heq]

/-- Witness for `C2_bind_cases` at concrete inputs. -/
theorem C2_bind_cases_witness :
    (VResult.valid (1 : Nat) ["w1"] [CaptureSet.empty]).bind
        (fun n => VResult.invalid (n + 1) ["e"] ["w2"] [CaptureSet.empty]) =
      .invalid 2 ["e"] ["w1", "w2"]
        (crossNE [CaptureSet.empty] [[CaptureSet.empty]]) :=
  ((((C2_bind_cases [] [] (fun n => VResult.invalid (n + 1) ["e"] ["w2"]
        [CaptureSet.empty]) (VResult.valid (1 : Nat) ["w1"] [CaptureSet.empty])
        1 2).2 rfl).2.2 (by decide)).1 (by decide))

/-! ### Claim C8 -/

theorem VResult.bind_failure {T U : Type} (e w : List String)
    (f : T → VResult U) :
    (VResult.failure e w : VResult T).bind f = .failure e w := rfl

theorem VResult.bind_assoc_diag_aux {A B C : Type} (r : VResult A) (v : A)
    (f : A → VResult B) (g : B → VResult C) (h : r.valueOf = some v) :
    ((r.bind f).bind g).warningsOf =
      (r.bind (fun x => (f x).bind g)).warningsOf ∧
    ((r.bind f).bind g).errorsOrEmpty =
      (r.bind (fun x => (f x).bind g)).errorsOrEmpty := by
  cases hfv : (f v).valueOf with
  | none =>
    obtain ⟨fe, fw, hfe⟩ : ∃ fe fw, f v = .failure fe fw := by
      cases hf : f v <;> simp [hf] at hfv ⊢
    have hff : (f v).isFailure = true := by rw [hfe]; rfl
    have hgf : ((fun x => (f x).bind g) v).isFailure = true := by
      show ((f v).bind g).isFailure = true
      rw [hfe]; rfl
    have h1 := VResult.bind_of_next_failure r v f h hff
    have h2 := VResult.bind_of_next_failure r v (fun x => (f x).bind g) h hgf
    simp only [hfe, VResult.errorsOrEmpty_failure, VResult.warningsOf_failure] at h1
    have h2' : r.bind (fun x => (f x).bind g) =
        .failure (r.errorsOrEmpty ++ fe) (r.warningsOf ++ fw) := by
      simpa [hfe, VResult.bind_failure] using h2
    rw [h1, VResult.bind_failure, h2']
    exact ⟨rfl, rfl⟩
  | some u =>
    have hbv : (r.bind f).valueOf = some u := by
      rw [VResult.bind_valueOf_of_value r v f h, hfv]
    constructor
    · rw [VResult.bind_warningsOf_of_value (r.bind f) u g hbv,
        VResult.bind_warningsOf_of_value r v f h,
        VResult.bind_warningsOf_of_value r v (fun x => (f x).bind g) h]
      show _ = r.warningsOf ++ ((f v).bind g).warningsOf
      rw [VResult.bind_warningsOf_of_value (f v) u g hfv, List.append_assoc]
    · rw [VResult.bind_errorsOrEmpty_of_value (r.bind f) u g hbv,
        VResult.bind_errorsOrEmpty_of_value r v f h,
        VResult.bind_errorsOrEmpty_of_value r v (fun x => (f x).bind g) h]
      show _ = r.errorsOrEmpty ++ ((f v).bind g).errorsOrEmpty
      rw [VResult.bind_errorsOrEmpty_of_value (f v) u g hfv, List.append_assoc]

theorem VResult.bind_assoc_diagnostics {A B C : Type} (r : VResult A)
    (f : A → VResult B) (g : B → VResult C) :
    ((r.bind f).bind g).warningsOf =
      (r.bind (fun x => (f x).bind g)).warningsOf ∧
    ((r.bind f).bind g).errorsOrEmpty =
      (r.bind (fun x => (f x).bind g)).errorsOrEmpty := by
  cases r with
  | failure e w => exact ⟨rfl, rfl⟩
  | valid rv w c => exact VResult.bind_assoc_diag_aux _ rv f g rfl
  | invalid rv e w c => exact VResult.bind_assoc_diag_aux _ rv f g rfl

/-- C8. The warnings and errors of a three-stage `chain` are independent
of how the chain is grouped — `chain(a,b,c)`, `chain(chain(a,b),c)` and
`chain(a,chain(b,c))` produce the same warnings and errors sequences — and
when every stage yields a value they equal the stage-order concatenation of
each stage's warnings and errors. -/
theorem C8_chain_diagnostics {A B C D : Type} (a : A → VResult B)
    (b : B → VResult C) (c : C → VResult D) (i : A) (v1 : B) (v2 : C) :
    ((chain3 a b c i).warningsOf = (chain2 (chain2 a b) c i).warningsOf ∧
     (chain3 a b c i).errorsOrEmpty = (chain2 (chain2 a b) c i).errorsOrEmpty ∧
     (chain3 a b c i).warningsOf = (chain2 a (chain2 b c) i).warningsOf ∧
     (chain3 a b c i).errorsOrEmpty = (chain2 a (chain2 b c) i).errorsOrEmpty) ∧
    ((a i).valueOf = some v1 → (b v1).valueOf = some v2 →
      (chain3 a b c i).warningsOf =
        (a i).warningsOf ++ ((b v1).warningsOf ++ (c v2).warningsOf) ∧
      (chain3 a b c i).errorsOrEmpty =
        (a i).errorsOrEmpty ++ ((b v1).errorsOrEmpty ++ (c v2).errorsOrEmpty)) := by
  constructor
  · refine ⟨rfl, rfl, ?_, ?_⟩
    · exact (VResult.bind_assoc_diagnostics (a i) b c).1
    · exact (VResult.bind_assoc_diagnostics (a i) b c).2
  · intro h1 h2
    have hab : ((a i).bind b).valueOf = some v2 := by
      rw [VResult.bind_valueOf_of_value (a i) v1 b h1, h2]
    constructor
    · show (((a i).bind b).bind c).warningsOf = _
      rw [VResult.bind_warningsOf_of_value _ v2 c hab,
        VResult.bind_warningsOf_of_value (a i) v1 b h1, List.append_assoc]
    · show (((a i).bind b).bind c).errorsOrEmpty = _
      rw [VResult.bind_errorsOrEmpty_of_value _ v2 c hab,
        VResult.bind_errorsOrEmpty_of_value (a i) v1 b h1, List.append_assoc]

/-- Witness for `C8_chain_diagnostics` at concrete inputs. -/
theorem C8_chain_diagnostics_witness :
    (chain3 (fun n : Nat => VResult.valid n ["wa"] [CaptureSet.empty])
      (fun n : Nat => VResult.invalid n ["eb"] ["wb"] [CaptureSet.empty])
      (fun n : Nat => VResult.valid n ["wc"] [CaptureSet.empty]) 0).warningsOf =
      ["wa"] ++ (["wb"] ++ ["wc"]) ∧
    (chain3 (fun n : Nat => VResult.valid n ["wa"] [CaptureSet.empty])
      (fun n : Nat => VResult.invalid n ["eb"] ["wb"] [CaptureSet.empty])
      (fun n : Nat => VResult.valid n ["wc"] [CaptureSet.empty]) 0).errorsOrEmpty =
      [] ++ (["eb"] ++ []) :=
  (C8_chain_diagnostics (fun n : Nat => VResult.valid n ["wa"] [CaptureSet.empty])
    (fun n : Nat => VResult.invalid n ["eb"] ["wb"] [CaptureSet.empty])
    (fun n : Nat => VResult.valid n ["wc"] [CaptureSet.empty]) 0 0 0).2 rfl rfl

/-! ### Claim C3 -/

/-- C3, code bug. The claim — matching the spec — says `mergeResults`
returns a `Failure` carrying the accumulated diagnostics whenever some result
in the sequence is a `Failure`. The code instead computes the capture cross
product *before* branching on whether a `Failure` was seen; when the first
result is already a `Failure` nothing was collected into the capture
multimap, `crossProductCaptures` receives zero lists, and `mergeResults`
throws `'cross product is undefined when no CaptureSet arrays are provided'`
instead of returning `Failure(['e'], ['w'])`. -/
theorem C3_mergeResults_first_failure_throws :
    mergeResults [(VResult.failure ["e"] ["w"] : VResult Nat)] (fun _ => none)
      (fun _ => (VResult.valid (0 : Nat) [] [])) =
      .error "cross product is undefined when no CaptureSet arrays are provided" := by
  rfl

/-! ### Claim C5 -/

theorem TF.tid_mem_tids (t : TF) : t.tid ∈ t.tids := by
  cases t <;> simp [TF.tid, TF.tids]

theorem TF.tids_eq (t : TF) : t.tids = t.tid :: t.bodyTids := by
  cases t <;> rfl

theorem transformT_hit (t : TF) (i : Nat) (s : TState) (r : Nat)
    (h : lookupA s.cache (t.tid, i) = some r) : transformT t i s = (r, s) := by
  unfold transformT
  rw [h]

theorem transformT_miss (t : TF) (i : Nat) (s : TState)
    (h : lookupA s.cache (t.tid, i) = none) :
    transformT t i s =
      ((runBody t i (invokeState t i s)).1,
       finishState t i (runBody t i (invokeState t i s)).1
         (runBody t i (invokeState t i s)).2) := by
  unfold transformT
  rw [h]

theorem runBody_leaf (tid i : Nat) (s : TState) :
    runBody (.leaf tid) i s =
      (s.nextInst, ⟨s.cache, s.prodCtx, s.nextInst + 1, s.invoked⟩) := by
  unfold runBody
  rfl

theorem runBody_seq (tid : Nat) (f : Nat → Nat) (a b : TF) (i : Nat)
    (s : TState) :
    runBody (.seq tid f a b) i s =
      transformT b (f (transformT a i s).1) (transformT a i s).2 := by
  unfold runBody
  rfl

theorem transformT_repeat (t : TF) (i : Nat) (s : TState) :
    transformT t i (transformT t i s).2 = transformT t i s := by
  cases h : lookupA s.cache (t.tid, i) with
  | some r =>
    rw [transformT_hit t i s r h]
    exact transformT_hit t i s r h
  | none =>
    rw [transformT_miss t i s h]
    exact transformT_hit t i _ _ (lookupA_mapSet_self _ _ _)

theorem EngineStep_of_same (ts : List Nat) (s s' : TState)
    (hinv : s'.invoked = s.invoked) (hc : s'.cache = s.cache) :
    EngineStep ts s s' [] := by
  refine ⟨by simp [hinv], by simp, by simp, by simp, List.nodup_nil,
    fun k v h => by rw [hc]; exact h, fun k h1 h2 => ?_⟩
  rw [hc, h1] at h2
  simp at h2

theorem EngineStep_trans {ts1 ts2 : List Nat} {s s1 s2 : TState}
    {d1 d2 : List (Nat × Nat)} (h1 : EngineStep ts1 s s1 d1)
    (h2 : EngineStep ts2 s1 s2 d2) :
    EngineStep (ts1 ++ ts2) s s2 (d1 ++ d2) := by
  obtain ⟨a1, a2, a3, a4, a5, a6, a7⟩ := h1
  obtain ⟨b1, b2, b3, b4, b5, b6, b7⟩ := h2
  refine ⟨?_, ?_, ?_, ?_, ?_, ?_, ?_⟩
  · rw [b1, a1, List.append_assoc]
  · intro p hp
    rcases List.mem_append.1 hp with h | h
    · exact List.mem_append.2 (Or.inl (a2 p h))
    · exact List.mem_append.2 (Or.inr (b2 p h))
  · intro p hp
    rcases List.mem_append.1 hp with h | h
    · exact a3 p h
    · cases hk : lookupA s.cache p with
      | none => rfl
      | some v => exact absurd (a6 p v hk) (by rw [b3 p h]; simp)
  · intro p hp
    rcases List.mem_append.1 hp with h | h
    · obtain ⟨v, hv⟩ := Option.isSome_iff_exists.1 (a4 p h)
      rw [b6 p v hv]
      rfl
    · exact b4 p h
  · refine List.Nodup.append a5 b5 (fun p hp1 hp2 => ?_)
    have hc1 := a4 p hp1
    rw [b3 p hp2] at hc1
    simp at hc1
  · exact fun k v hkv => b6 k v (a6 k v hkv)
  · intro k hk hk2
    cases hk1 : lookupA s1.cache k with
    | some v => exact List.mem_append.2 (Or.inl (a7 k hk (by rw [hk1]; rfl)))
    | none => exact List.mem_append.2 (Or.inr (b7 k hk1 hk2))

theorem transformT_step (t : TF) (hn : t.tids.Nodup)
    (hbody : ∀ i s, ∃ d, EngineStep t.bodyTids s (runBody t i s).2 d)
    (i : Nat) (s : TState) :
    ∃ d, EngineStep t.tids s (transformT t i s).2 d := by
  have hn' : t.tid ∉ t.bodyTids ∧ t.bodyTids.Nodup := by
    have := hn
    rw [TF.tids_eq] at this
    exact List.nodup_cons.1 this
  cases h : lookupA s.cache (t.tid, i) with
  | some r =>
    rw [transformT_hit t i s r h]
    exact ⟨[], EngineStep_of_same _ _ _ rfl rfl⟩
  | none =>
    obtain ⟨d, hd1, hd2, hd3, hd4, hd5, hd6, hd7⟩ := hbody i (invokeState t i s)
    rw [transformT_miss t i s h]
    refine ⟨(t.tid, i) :: d, ?_, ?_, ?_, ?_, ?_, ?_, ?_⟩
    · show (runBody t i (invokeState t i s)).2.invoked = _
      rw [hd1]
      show (s.invoked ++ [(t.tid, i)]) ++ d = _
      rw [List.append_assoc]
      rfl
    · intro p hp
      rcases List.mem_cons.1 hp with rfl | hp'
      · exact TF.tid_mem_tids t
      · rw [TF.tids_eq]
        exact List.mem_cons.2 (Or.inr (hd2 p hp'))
    · intro p hp
      rcases List.mem_cons.1 hp with rfl | hp'
      · exact h
      · exact hd3 p hp'
    · intro p hp
      show (lookupA (mapSet (runBody t i (invokeState t i s)).2.cache (t.tid, i)
        (runBody t i (invokeState t i s)).1 ) p).isSome = true
      rcases List.mem_cons.1 hp with rfl | hp'
      · rw [lookupA_mapSet_self]
        rfl
      · by_cases hpk : p = (t.tid, i)
        · rw [hpk, lookupA_mapSet_self]
          rfl
        · rw [lookupA_mapSet_ne _ _ _ _ hpk]
          exact hd4 p hp'
    · refine List.nodup_cons.2 ⟨fun hmem => ?_, hd5⟩
      exact hn'.1 (hd2 (t.tid, i) hmem)
    · intro k v hkv
      have hkne : k ≠ (t.tid, i) := by
        intro hk
        rw [hk, h] at hkv
        exact Option.noConfusion hkv
      show lookupA (mapSet _ (t.tid, i) _) k = some v
      rw [lookupA_mapSet_ne _ _ _ _ hkne]
      exact hd6 k v hkv
    · intro k hk hk2
      by_cases hpk : k = (t.tid, i)
      · rw [hpk]
        exact TF.tid_mem_tids t
      · show k.1 ∈ t.tids
        rw [TF.tids_eq]
        refine List.mem_cons.2 (Or.inr (hd7 k hk ?_))
        show (lookupA _ k).isSome = true
        have := hk2
        rw [show (finishState t i (runBody t i (invokeState t i s)).1
          (runBody t i (invokeState t i s)).2).cache =
          mapSet (runBody t i (invokeState t i s)).2.cache (t.tid, i)
            (runBody t i (invokeState t i s)).1 from rfl] at this
        rw [lookupA_mapSet_ne _ _ _ _ hpk] at this
        exact this

theorem engine_contract (t : TF) : t.tids.Nodup →
    (∀ i s, ∃ d, EngineStep t.bodyTids s (runBody t i s).2 d) ∧
    (∀ i s, ∃ d, EngineStep t.tids s (transformT t i s).2 d) := by
  induction t with
  | leaf tid =>
    intro hn
    have hbody : ∀ i s, ∃ d,
        EngineStep (TF.leaf tid).bodyTids s (runBody (.leaf tid) i s).2 d := by
      intro i s
      rw [runBody_leaf]
      exact ⟨[], EngineStep_of_same _ _ _ rfl rfl⟩
    exact ⟨hbody, fun i s => transformT_step _ hn hbody i s⟩
  | seq tid f a b iha ihb =>
    intro hn
    have htail : (a.tids ++ b.tids).Nodup := (List.nodup_cons.1 hn).2
    have hna : a.tids.Nodup := htail.of_append_left
    have hnb : b.tids.Nodup := htail.of_append_right
    have hbody : ∀ i s, ∃ d,
        EngineStep (TF.seq tid f a b).bodyTids s
          (runBody (.seq tid f a b) i s).2 d := by
      intro i s
      rw [runBody_seq]
      obtain ⟨da, hda⟩ := (iha hna).2 i s
      obtain ⟨db, hdb⟩ := (ihb hnb).2 (f (transformT a i s).1) (transformT a i s).2
      exact ⟨da ++ db, EngineStep_trans hda hdb⟩
    exact ⟨hbody, fun i s => transformT_step _ hn hbody i s⟩

/-- C5. Within one top-level `transform` call: a request whose
`(transformer, input)` pair is cached returns the identical memoized result
instance with the state untouched; an immediately repeated request of any
pair returns the identical result and changes nothing; memoized associations
persist unchanged across any further request; and, starting from the fresh
per-call state, every transformer body is invoked at most once per
`(transformer, input)` pair. -/
theorem C5_transform_memoization (t : TF) (i : Nat) (s : TState)
    (hn : t.tids.Nodup) :
    (∀ r, lookupA s.cache (t.tid, i) = some r → transformT t i s = (r, s)) ∧
    transformT t i (transformT t i s).2 = transformT t i s ∧
    (∀ k v, lookupA s.cache k = some v →
      lookupA (transformT t i s).2.cache k = some v) ∧
    (runTransform t i).2.invoked.Nodup := by
  refine ⟨fun r h => transformT_hit t i s r h, transformT_repeat t i s, ?_, ?_⟩
  · intro k v hkv
    obtain ⟨d, hd⟩ := (engine_contract t hn).2 i s
    exact hd.2.2.2.2.2.1 k v hkv
  · obtain ⟨d, hd⟩ := (engine_contract t hn).1 i initTState
    show (runBody t i initTState).2.invoked.Nodup
    rw [hd.1]
    simpa using hd.2.2.2.2.1

/-- Witness for `C5_transform_memoization` at concrete inputs. -/
theorem C5_transform_memoization_witness :
    transformT (TF.seq 0 (fun n => n) (.leaf 1) (.leaf 2)) 7
        ⟨[((0, 7), 42)], [], 0, []⟩ = (42, ⟨[((0, 7), 42)], [], 0, []⟩) ∧
    (runTransform (TF.seq 0 (fun n => n) (.leaf 1) (.leaf 2)) 7).2.invoked.Nodup :=
  ⟨(C5_transform_memoization (TF.seq 0 (fun n => n) (.leaf 1) (.leaf 2)) 7
      ⟨[((0, 7), 42)], [], 0, []⟩ (by decide)).1 42 (by decide),
   (C5_transform_memoization (TF.seq 0 (fun n => n) (.leaf 1) (.leaf 2)) 7
      ⟨[((0, 7), 42)], [], 0, []⟩ (by decide)).2.2.2⟩
